import Mathlib

/-!
Shallow embedding of `src/app.py` (audioknigi-club-downloader-app), a CLI tool
that downloads audiobooks: it extracts a playlist from a rendered page, fetches
each chapter over HTTP and writes the bytes to files.  Strings are embedded as
`List Char`, byte payloads as `List Nat`, the filesystem as an association list
from full file names to contents, and the effectful driver as a pure state
function that also records the terminal output as a trace of events.
-/

/-! ## Slug machinery

The program imports `slugify` from the external python-slugify package.
Modelled from the spec: the slug-generation capability takes an arbitrary
string to a filesystem-safe, lowercase, punctuation-stripped rendering
(spec glossary): lowercase the input, keep maximal runs of characters in
[a-z0-9], and join the runs with single dashes.
-/

/-- ASCII lowercasing of one character, modelling Python str.lower for the
ASCII range used by python-slugify. -/
def lowerChar (c : Char) : Char :=
  if 65 ≤ c.toNat ∧ c.toNat ≤ 90 then Char.ofNat (c.toNat + 32) else c

/-- Characters that survive slugification: ASCII lowercase letters and digits. -/
def isSlugChar (c : Char) : Bool :=
  (decide (97 ≤ c.toNat) && decide (c.toNat ≤ 122))
    || (decide (48 ≤ c.toNat) && decide (c.toNat ≤ 57))

/-- Maximal runs of slug characters of a string, in order; all other
characters act as separators and are dropped. -/
def slugRuns : List Char → List (List Char)
  | [] => []
  | [c] => if isSlugChar c then [[c]] else []
  | c :: d :: rest =>
    if isSlugChar c then
      if isSlugChar d then
        match slugRuns (d :: rest) with
        | [] => [[c]]
        | w :: ws => (c :: w) :: ws
      else [c] :: slugRuns (d :: rest)
    else slugRuns (d :: rest)

/-- Join words with single dashes (no leading or trailing dash). -/
def joinDash : List (List Char) → List Char
  | [] => []
  | [w] => w
  | w :: ws => w ++ '-' :: joinDash ws

/-- Modelled from the spec: the external slug function (python-slugify).
Lowercase, then keep the maximal alphanumeric runs joined by dashes. -/
def slugify (s : List Char) : List Char :=
  joinDash (slugRuns (s.map lowerChar))

/-- True when a string does not begin with a slug character, so that a
preceding run of slug characters is maximal. -/
def headNotSlug : List Char → Bool
  | [] => true
  | c :: _ => !isSlugChar c

/-! ## get_book_title (src/app.py lines 73-75) -/

/-- Python str.split on the slash character: always returns at least one
(possibly empty) segment. -/
def splitSlash : List Char → List (List Char)
  | [] => [[]]
  | c :: rest =>
    match splitSlash rest with
    | [] => [[]]
    | w :: ws => if c = '/' then [] :: w :: ws else (c :: w) :: ws

/-- Embeds get_book_title: slugify the last slash-separated segment of the
book URL. -/
def get_book_title (url : List Char) : List Char :=
  slugify ((splitSlash url).getLastD [])

/-! ## get_book_id (src/app.py lines 44-47)

The source searches the rendered HTML for the regular expression
data-global-id="(digits)" and returns the first captured digit group; when
no match exists, re.search returns None and the .group call raises.  We embed
the search as a scan over character positions returning an Option.
-/

/-- ASCII digit test, modelling the regex digit class for ASCII input. -/
def isDigitChar (c : Char) : Bool :=
  decide (48 ≤ c.toNat) && decide (c.toNat ≤ 57)

/-- The literal marker that must precede the digit run in the markup. -/
def markerStr : List Char :=
  ['d', 'a', 't', 'a', '-', 'g', 'l', 'o', 'b', 'a', 'l', '-', 'i', 'd', '=', '"']

/-- Embeds get_book_id: find the first position where the marker occurs
followed by a nonempty digit run and a closing quote; return the digit run,
or none when no position matches (the Python call would raise). -/
def get_book_id : List Char → Option (List Char)
  | [] => none
  | c :: rest =>
    if markerStr.isPrefixOf (c :: rest) then
      let after := List.drop markerStr.length (c :: rest)
      let ds := after.takeWhile isDigitChar
      if ds.isEmpty then get_book_id rest
      else if (after.dropWhile isDigitChar).head? = some '"' then some ds
      else get_book_id rest
    else get_book_id rest

/-! ## Playlist (src/app.py lines 59-65)

get_playlist drives the browser (an effect), reads the JSON chapter records
and then yields the pair (track mp3 url, slugified track title) for each
record in order.  We embed the pure part: the chapter records are a
parameter, each carrying the media-url field and the title field of the
JSON record.
-/

/-- One JSON track record of the ajax playlist payload: a media-url field
(mp3) and a title field. -/
structure TrackRec where
  mp3 : List Char
  title : List Char

/-- Embeds the yield loop of get_playlist: one (url, name) pair per record,
in order, with the title slugified and the url passed through. -/
def get_playlist (chapters : List TrackRec) : List (List Char × List Char) :=
  chapters.map (fun t => (t.mp3, slugify t.title))

/-! ## Output directory resolution (src/app.py lines 78-95) -/

/-- Kinds a filesystem path can have before the run. -/
inductive PathKind
  | absent
  | isDir
  | isFile
  deriving DecidableEq

/-- Modelled os.path.abspath: an absolute path is returned unchanged, a
relative one is joined to the current working directory. -/
def abspath (cwd p : List Char) : List Char :=
  if p.head? = some '/' then p else cwd ++ '/' :: p

/-- Python next(filter(bool, dirs)): the first candidate that is neither
None nor the empty string; none models the StopIteration case. -/
def firstNonBlank : List (Option (List Char)) → Option (List Char)
  | [] => none
  | none :: rest => firstNonBlank rest
  | some d :: rest => if d.isEmpty then firstNonBlank rest else some d

/-- Embeds get_non_blank_path (lines 78-80): absolutize the first non-blank
candidate. -/
def get_non_blank_path (cwd : List Char) (dirs : List (Option (List Char))) :
    Option (List Char) :=
  (firstNonBlank dirs).map (abspath cwd)

/-! ## Filesystem store

Files created or touched by the run, as an association list from full file
names to byte contents (bytes as Nat).  A fresh name is appended at the end,
so the length of the store counts the distinct files ever opened.
-/

/-- The files of the output directory, keyed by full path. -/
abbrev Store := List (List Char × List Nat)

/-- Content of a file in the store, if present. -/
def fsLookup : Store → List Char → Option (List Nat)
  | [], _ => none
  | (m, c) :: rest, n => if m = n then some c else fsLookup rest n

/-- Set the content of a file, creating it at the end when absent. -/
def fsSet : Store → List Char → List Nat → Store
  | [], n, b => [(n, b)]
  | (m, c) :: rest, n, b =>
    if m = n then (m, b) :: rest else (m, c) :: fsSet rest n b

/-- Python open(name, mode wb): truncate or create the file. -/
def fsOpenTrunc (s : Store) (n : List Char) : Store := fsSet s n []

/-- Python open(name, mode ab): create the file empty when absent, keep
its content otherwise. -/
def fsOpenAppend (s : Store) (n : List Char) : Store :=
  match fsLookup s n with
  | some _ => s
  | none => fsSet s n []

/-- Write bytes at the end of an open file. -/
def fsAppend (s : Store) (n : List Char) (b : List Nat) : Store :=
  fsSet s n ((fsLookup s n).getD [] ++ b)

/-- Modelled os.path.join for an absolute directory and a relative name. -/
def pathJoin (path fname : List Char) : List Char := path ++ '/' :: fname

/-! ## Environment of one run

All effectful collaborators of the driver, as pure data: the working
directory, the pre-run state of filesystem paths, the directory listing, the
pre-existing output files, the answer the user gives to the confirmation
prompt, the HTTP client, and the chapter records that the scrape yields.
-/

/-- The external world of one cli invocation. -/
structure Env where
  cwd : List Char
  pathKind : List Char → PathKind
  dirListing : List Char → List (List Char)
  initialStore : Store
  confirmAnswer : Bool
  fetch : List Char → Option (List Nat)
  chapters : List TrackRec

/-- Embeds get_or_create_output_dir (lines 83-90): resolve the path; when it
exists as a regular file, os.makedirs raises FileExistsError which the source
converts to TypeError (the error case); otherwise the directory exists or is
created and the path is returned.  The outer none models the unreachable
StopIteration of an all-blank candidate list. -/
def get_or_create_output_dir (env : Env) (dirname : Option (List Char))
    (book_title : List Char) : Option (Except (List Char) (List Char)) :=
  match get_non_blank_path env.cwd [dirname, some book_title, some env.cwd] with
  | none => none
  | some path =>
    match env.pathKind path with
    | PathKind.isFile => some (Except.error path)
    | _ => some (Except.ok path)

/-- Directory entries as os.listdir sees them right after
get_or_create_output_dir: a directory that had to be created is empty. -/
def dirEntriesAfterCreate (env : Env) (path : List Char) : List (List Char) :=
  match env.pathKind path with
  | PathKind.absent => []
  | _ => env.dirListing path

/-- Embeds contains_files (lines 93-95): bool(os.listdir(path)). -/
def contains_files (env : Env) (path : List Char) : Bool :=
  !(dirEntriesAfterCreate env path).isEmpty

/-! ## The driver (src/app.py lines 98-139) -/

/-- Lines the driver prints, in order. -/
inductive Event
  | errMsg
  | prompt
  | terminatedMsg
  | announce
  | progress (fname : List Char)
  | allDone
  deriving DecidableEq

/-- How the process ends: sys.exit(1), sys.exit(0) after a declined prompt,
an uncaught exception, or a normal return after the completion line. -/
inductive Outcome
  | exitFail
  | terminated
  | uncaught
  | success
  deriving DecidableEq

/-- State after the chapter loop: the files, the printed lines of the loop,
and whether the loop ran to completion. -/
structure LoopResult where
  store : Store
  events : List Event
  ok : Bool
  deriving DecidableEq

/-- The file a track is written to: the book title slug in one-file mode,
the track name otherwise (the two output_file lambdas, lines 129-132). -/
def targetOf (one_file : Bool) (path book_title fname : List Char) : List Char :=
  if one_file then pathJoin path book_title else pathJoin path fname

/-- Open mode of the output file: append in one-file mode, truncate
otherwise. -/
def openFile (one_file : Bool) (s : Store) (t : List Char) : Store :=
  if one_file then fsOpenAppend s t else fsOpenTrunc s t

/-- Embeds the chapter loop (lines 134-139): per track print the progress
line, open the output file, fetch the chapter and write it; a failed fetch
stops the loop after the open, an exhausted playlist prints the completion
line. -/
def downloadLoop (fetch : List Char → Option (List Nat)) (one_file : Bool)
    (path book_title : List Char) :
    List (List Char × List Char) → Store → LoopResult
  | [], s => ⟨s, [Event.allDone], true⟩
  | (url, fname) :: rest, s =>
    let t := targetOf one_file path book_title fname
    let s1 := openFile one_file s t
    match fetch url with
    | none => ⟨s1, [Event.progress fname], false⟩
    | some b =>
      let r := downloadLoop fetch one_file path book_title rest (fsAppend s1 t b)
      ⟨r.store, Event.progress fname :: r.events, r.ok⟩

/-- The chapter loop as cli runs it, over the playlist of the scraped
chapters, starting from the pre-existing files. -/
def runLoopOf (env : Env) (url path : List Char) (one_file : Bool) : LoopResult :=
  downloadLoop env.fetch one_file path (get_book_title url)
    (get_playlist env.chapters) env.initialStore

/-- Embeds cli (lines 112-139): resolve the output directory (TypeError is
reported and exits with code 1), prompt before overwriting a non-empty
directory unless forced (declining prints Terminated and exits with code 0),
then run the chapter loop. -/
def cli (env : Env) (audio_book_url : List Char) (output_dir : Option (List Char))
    (force_overwrite one_file : Bool) : Outcome × Store × List Event :=
  match get_or_create_output_dir env output_dir (get_book_title audio_book_url) with
  | none => (Outcome.uncaught, env.initialStore, [])
  | some (Except.error _) => (Outcome.exitFail, env.initialStore, [Event.errMsg])
  | some (Except.ok path) =>
    if contains_files env path && !force_overwrite then
      if env.confirmAnswer then
        let r := runLoopOf env audio_book_url path one_file
        (if r.ok then Outcome.success else Outcome.uncaught, r.store,
          Event.prompt :: Event.announce :: r.events)
      else (Outcome.terminated, env.initialStore, [Event.prompt, Event.terminatedMsg])
    else
      let r := runLoopOf env audio_book_url path one_file
      (if r.ok then Outcome.success else Outcome.uncaught, r.store,
        Event.announce :: r.events)

/-! ## The browser scope (src/app.py lines 33-41)

open_browser is a contextmanager whose body sits between browser.get(url)
and browser.close(); the close call follows the yield with no try/finally,
so it runs only when the body finishes without an exception.  We embed the
scope as the trace of browser calls it produces around a body that either
finishes (ok true) or raises (ok false).
-/

/-- Calls made on the browser resource. -/
inductive BrowserAct
  | nav (url : List Char)
  | close
  deriving DecidableEq

/-- Embeds with open_browser(url): navigate, run the body, and close only
on the normal exit path. -/
def open_browser_run (url : List Char) (bodyActs : List BrowserAct)
    (bodyOk : Bool) : List BrowserAct :=
  BrowserAct.nav url :: bodyActs ++ (if bodyOk then [BrowserAct.close] else [])

/-! ## Concrete environments used to evaluate the model on closed inputs -/

/-- A fresh world: absolute working directory, every path absent, no
pre-existing files, prompt would be declined. -/
def envW (chapters : List TrackRec) (fetch : List Char → Option (List Nat)) : Env where
  cwd := "/w".toList
  pathKind := fun _ => PathKind.absent
  dirListing := fun _ => []
  initialStore := []
  confirmAnswer := false
  fetch := fetch
  chapters := chapters

/-- A fresh world with no chapters and a failing fetcher. -/
def envW0 : Env := envW [] (fun _ => none)

/-- A world where one given path exists as a regular file. -/
def envWithFile (p : List Char) : Env :=
  { envW0 with pathKind := fun q => if q = p then PathKind.isFile else PathKind.absent }

/-- A world where every path is an existing directory with one entry. -/
def envPrompt : Env :=
  { envW0 with pathKind := fun _ => PathKind.isDir, dirListing := fun _ => [['f']] }

/-- Three chapters that all fetch successfully. -/
def envW1 : Env :=
  envW [⟨"u1".toList, "A".toList⟩, ⟨"u2".toList, "B".toList⟩, ⟨"u3".toList, "C".toList⟩]
    (fun u =>
      if u = "u1".toList then some [1]
      else if u = "u2".toList then some [2, 3]
      else if u = "u3".toList then some [4]
      else none)

/-- Two chapters whose titles slugify to the same name, both fetching
successfully. -/
def envW10 : Env :=
  envW [⟨"u1".toList, "A".toList⟩, ⟨"u2".toList, "a".toList⟩]
    (fun u => if u = "u1".toList then some [1] else some [2])

/-- Two chapters whose titles slugify to the same name; the first fetch
yields bytes, the second fails. -/
def envC2 : Env :=
  envW [⟨"u1".toList, "a".toList⟩, ⟨"u2".toList, "a".toList⟩]
    (fun u => if u = "u1".toList then some [7] else none)

/-- One chapter that fetches successfully. -/
def envW2 : Env :=
  envW [⟨"u1".toList, "a".toList⟩] (fun _ => some [9])

/-! ## Helper lemmas about the store -/

theorem fsLookup_fsSet_self : ∀ (s : Store) (n : List Char) (b : List Nat),
    fsLookup (fsSet s n b) n = some b
  | [], n, b => by simp [fsSet, fsLookup]
  | (m, c) :: rest, n, b => by
    by_cases h : m = n
    · simp [fsSet, fsLookup, h]
    · simp [fsSet, fsLookup, h, fsLookup_fsSet_self rest n b]

theorem fsLookup_fsSet_ne : ∀ (s : Store) (n m : List Char) (b : List Nat),
    m ≠ n → fsLookup (fsSet s n b) m = fsLookup s m
  | [], n, m, b, hne => by simp [fsSet, fsLookup, Ne.symm hne]
  | (k, c) :: rest, n, m, b, hne => by
    by_cases hk : k = n
    · subst hk
      have hkm : ¬ k = m := fun h => hne h.symm
      simp [fsSet, fsLookup, hkm]
    · by_cases hkm : k = m
      · subst hkm
        simp [fsSet, fsLookup, hk]
      · simp [fsSet, fsLookup, hk, hkm, fsLookup_fsSet_ne rest n m b hne]

theorem fsSet_fsSet_self : ∀ (s : Store) (n : List Char) (b b2 : List Nat),
    fsSet (fsSet s n b) n b2 = fsSet s n b2
  | [], n, b, b2 => by simp [fsSet]
  | (m, c) :: rest, n, b, b2 => by
    by_cases h : m = n
    · simp [fsSet, h]
    · simp [fsSet, h, fsSet_fsSet_self rest n b b2]

theorem fsSet_eq_append_of_none : ∀ (s : Store) (n : List Char) (b : List Nat),
    fsLookup s n = none → fsSet s n b = s ++ [(n, b)]
  | [], n, b, _ => by simp [fsSet]
  | (m, c) :: rest, n, b, h => by
    by_cases hm : m = n
    · simp [fsLookup, hm] at h
    · simp [fsLookup, hm] at h
      simp [fsSet, hm, fsSet_eq_append_of_none rest n b h]

/-! ## Helper lemmas about scanning -/

theorem isPrefixOf_append_self : ∀ (l1 l2 : List Char), l1.isPrefixOf (l1 ++ l2) = true
  | [], _ => by simp [List.isPrefixOf]
  | c :: cs, l2 => by simp [List.isPrefixOf, isPrefixOf_append_self cs l2]

theorem takeWhile_all_append (p : Char → Bool) :
    ∀ (ds : List Char) (q : Char) (t : List Char),
      (∀ c ∈ ds, p c = true) → p q = false →
      (ds ++ q :: t).takeWhile p = ds ∧ (ds ++ q :: t).dropWhile p = q :: t
  | [], q, t, _, hq => by simp [hq]
  | d :: ds', q, t, h, hq => by
    have hd : p d = true := h d (List.mem_cons_self _ _)
    have ih := takeWhile_all_append p ds' q t
      (fun c hc => h c (List.mem_cons_of_mem _ hc)) hq
    simp [List.takeWhile_cons, List.dropWhile_cons, hd, ih.1, ih.2]

/-! ## Helper lemmas about the chapter loop -/

theorem loop_success_spec (fetch : List Char → Option (List Nat)) (one_file : Bool)
    (path bt : List Char) :
    ∀ (pl : List (List Char × List Char)) (s : Store),
      (∀ p ∈ pl, fetch p.1 ≠ none) →
      (downloadLoop fetch one_file path bt pl s).ok = true
      ∧ (downloadLoop fetch one_file path bt pl s).events
          = pl.map (fun p => Event.progress p.2) ++ [Event.allDone]
  | [], s, _ => by simp [downloadLoop]
  | (url, fname) :: rest, s, h => by
    obtain ⟨b, hb⟩ : ∃ b, fetch url = some b := by
      cases hfu : fetch url with
      | none => exact absurd hfu (h (url, fname) (List.mem_cons_self _ _))
      | some b => exact ⟨b, rfl⟩
    have ih := loop_success_spec fetch one_file path bt rest
      (fsAppend (openFile one_file s (targetOf one_file path bt fname))
        (targetOf one_file path bt fname) b)
      (fun p hp => h p (List.mem_cons_of_mem _ hp))
    simp [downloadLoop, hb, ih.1, ih.2]

theorem loop_fail_spec (fetch : List Char → Option (List Nat)) (one_file : Bool)
    (path bt : List Char) :
    ∀ (pre : List (List Char × List Char)) (u n : List Char)
      (post : List (List Char × List Char)) (s : Store),
      (∀ p ∈ pre, fetch p.1 ≠ none) → fetch u = none →
      downloadLoop fetch one_file path bt (pre ++ (u, n) :: post) s
        = ⟨openFile one_file (downloadLoop fetch one_file path bt pre s).store
             (targetOf one_file path bt n),
           pre.map (fun p => Event.progress p.2) ++ [Event.progress n], false⟩
  | [], u, n, post, s, _, hu => by simp [downloadLoop, hu]
  | (url, fname) :: pre', u, n, post, s, h, hu => by
    obtain ⟨b, hb⟩ : ∃ b, fetch url = some b := by
      cases hfu : fetch url with
      | none => exact absurd hfu (h (url, fname) (List.mem_cons_self _ _))
      | some b => exact ⟨b, rfl⟩
    have ih := loop_fail_spec fetch one_file path bt pre' u n post
      (fsAppend (openFile one_file s (targetOf one_file path bt fname))
        (targetOf one_file path bt fname) b)
      (fun p hp => h p (List.mem_cons_of_mem _ hp)) hu
    simp [downloadLoop, hb, ih]

theorem loop_ok_fetch (fetch : List Char → Option (List Nat)) (one_file : Bool)
    (path bt : List Char) :
    ∀ (pl : List (List Char × List Char)) (s : Store),
      (downloadLoop fetch one_file path bt pl s).ok = true →
      ∀ p ∈ pl, fetch p.1 ≠ none
  | [], _, _, p, hp => absurd hp (List.not_mem_nil p)
  | (url, fname) :: rest, s, hok, p, hp => by
    cases hfu : fetch url with
    | none => simp [downloadLoop, hfu] at hok
    | some b =>
      rcases List.mem_cons.mp hp with h1 | h2
      · subst h1; simp [hfu]
      · exact loop_ok_fetch fetch one_file path bt rest _
          (by simpa [downloadLoop, hfu] using hok) p h2

theorem loop_events_shape (fetch : List Char → Option (List Nat)) (one_file : Bool)
    (path bt : List Char) :
    ∀ (pl : List (List Char × List Char)) (s : Store) (e : Event),
      e ∈ (downloadLoop fetch one_file path bt pl s).events →
      (∃ n, e = Event.progress n) ∨ e = Event.allDone
  | [], s, e, he => by
    simp [downloadLoop] at he
    exact Or.inr he
  | (url, fname) :: rest, s, e, he => by
    cases hfu : fetch url with
    | none =>
      simp [downloadLoop, hfu] at he
      exact Or.inl ⟨fname, he⟩
    | some b =>
      simp [downloadLoop, hfu] at he
      rcases he with he | he
      · exact Or.inl ⟨fname, he⟩
      · exact loop_events_shape fetch one_file path bt rest _ e he

theorem exists_first_fail (fetch : List Char → Option (List Nat)) :
    ∀ pl : List (List Char × List Char), (¬ ∀ p ∈ pl, fetch p.1 ≠ none) →
      ∃ pre u n post, pl = pre ++ (u, n) :: post
        ∧ (∀ p ∈ pre, fetch p.1 ≠ none) ∧ fetch u = none
  | [], h => absurd (by simp) h
  | (url, fname) :: rest, h => by
    cases hfu : fetch url with
    | none => exact ⟨[], url, fname, rest, rfl, by simp, hfu⟩
    | some b =>
      have hrest : ¬ ∀ p ∈ rest, fetch p.1 ≠ none := by
        intro hall
        refine h ?_
        intro p hp
        rcases List.mem_cons.mp hp with h1 | h2
        · subst h1; simp [hfu]
        · exact hall p h2
      obtain ⟨pre, u, n, post, hdec, hpre, hu⟩ := exists_first_fail fetch rest hrest
      refine ⟨(url, fname) :: pre, u, n, post, by simp [hdec], ?_, hu⟩
      intro p hp
      rcases List.mem_cons.mp hp with h1 | h2
      · subst h1; simp [hfu]
      · exact hpre p h2

theorem fsLookup_openFile_ne (one_file : Bool) (S : Store) (t f : List Char)
    (h : f ≠ t) : fsLookup (openFile one_file S t) f = fsLookup S f := by
  cases one_file with
  | false => exact fsLookup_fsSet_ne S t f [] h
  | true =>
    rw [openFile]
    simp only [if_pos]
    rw [fsOpenAppend]
    cases hl : fsLookup S t with
    | some b => rfl
    | none => exact fsLookup_fsSet_ne S t f [] h

theorem getLast?_cons_concat {α : Type} (e a : α) (l : List α) :
    (e :: (l ++ [a])).getLast? = some a := by
  rw [← List.cons_append, List.getLast?_concat]

theorem cli_run_spec (env : Env) (url : List Char) (odir : Option (List Char))
    (force one_file : Bool) (path : List Char)
    (hres : get_or_create_output_dir env odir (get_book_title url) = some (Except.ok path))
    (hrun : contains_files env path = false ∨ force = true ∨ env.confirmAnswer = true) :
    (cli env url odir force one_file).1
      = (if (runLoopOf env url path one_file).ok then Outcome.success else Outcome.uncaught)
    ∧ (cli env url odir force one_file).2.1 = (runLoopOf env url path one_file).store
    ∧ ((cli env url odir force one_file).2.2
         = Event.announce :: (runLoopOf env url path one_file).events
       ∨ (cli env url odir force one_file).2.2
         = Event.prompt :: Event.announce :: (runLoopOf env url path one_file).events) := by
  by_cases hc : (contains_files env path && !force) = true
  · have hca : env.confirmAnswer = true := by
      rcases hrun with h | h | h
      · rw [h] at hc
        simp at hc
      · rw [h] at hc
        simp at hc
      · exact h
    simp [cli, hres, hc, hca]
  · simp [cli, hres, hc]

/-! ## Helper lemmas about directory resolution -/

theorem abspath_abs (cwd p : List Char) (h : cwd.head? = some '/') :
    (abspath cwd p).head? = some '/' := by
  rw [abspath]
  by_cases hp : p.head? = some '/'
  · simp [hp]
  · simp only [hp, if_neg, if_false]
    cases cwd with
    | nil => simp
    | cons a cwd' => simpa using h

theorem get_non_blank_path_elim (cwd : List Char) (dirs : List (Option (List Char)))
    (path : List Char) (h : get_non_blank_path cwd dirs = some path) :
    ∃ d, firstNonBlank dirs = some d ∧ path = abspath cwd d := by
  rw [get_non_blank_path] at h
  cases hf : firstNonBlank dirs with
  | none =>
    rw [hf] at h
    simp at h
  | some d =>
    rw [hf] at h
    simp at h
    exact ⟨d, rfl, h.symm⟩

/-! ## Helper lemmas about get_book_id -/

theorem get_book_id_at_match (ds post : List Char) (hne : ds ≠ [])
    (hds : ∀ c ∈ ds, isDigitChar c = true) :
    get_book_id (markerStr ++ ds ++ '"' :: post) = some ds := by
  obtain ⟨d, ds', rfl⟩ : ∃ d ds', ds = d :: ds' := by
    cases ds with
    | nil => exact absurd rfl hne
    | cons d ds' => exact ⟨d, ds', rfl⟩
  have htake := takeWhile_all_append isDigitChar (d :: ds') '"' post hds (by decide)
  have htake1 : (d :: (ds' ++ '"' :: post)).takeWhile isDigitChar = d :: ds' := by
    simpa using htake.1
  have htake2 : (d :: (ds' ++ '"' :: post)).dropWhile isDigitChar = '"' :: post := by
    simpa using htake.2
  simp [markerStr, get_book_id, List.isPrefixOf, htake1, htake2]

/-! ## Helper computations of small chapter loops -/

theorem loop_one_file_three (fetch : List Char → Option (List Nat)) (path bt : List Char)
    (u1 n1 u2 n2 u3 n3 : List Char) (b1 b2 b3 : List Nat) (s : Store)
    (h1 : fetch u1 = some b1) (h2 : fetch u2 = some b2) (h3 : fetch u3 = some b3)
    (hs : fsLookup s (pathJoin path bt) = none) :
    downloadLoop fetch true path bt [(u1, n1), (u2, n2), (u3, n3)] s
      = ⟨s ++ [(pathJoin path bt, b1 ++ (b2 ++ b3))],
         [Event.progress n1, Event.progress n2, Event.progress n3, Event.allDone], true⟩ := by
  have hset := fsSet_eq_append_of_none s (pathJoin path bt) (b1 ++ (b2 ++ b3)) hs
  simp [downloadLoop, targetOf, openFile, fsOpenAppend, fsAppend, h1, h2, h3, hs,
    fsLookup_fsSet_self, fsSet_fsSet_self, hset]

theorem loop_trunc_two (fetch : List Char → Option (List Nat)) (path bt : List Char)
    (u1 u2 n : List Char) (b1 b2 : List Nat) (s : Store)
    (h1 : fetch u1 = some b1) (h2 : fetch u2 = some b2)
    (hs : fsLookup s (pathJoin path n) = none) :
    downloadLoop fetch false path bt [(u1, n), (u2, n)] s
      = ⟨s ++ [(pathJoin path n, b2)],
         [Event.progress n, Event.progress n, Event.allDone], true⟩ := by
  have hset := fsSet_eq_append_of_none s (pathJoin path n) b2 hs
  simp [downloadLoop, targetOf, openFile, fsOpenTrunc, fsAppend, h1, h2,
    fsLookup_fsSet_self, fsSet_fsSet_self, hset]

/-! ## Helper lemmas about slugification -/

theorem lowerChar_fix (c : Char) (h : isSlugChar c = true ∨ c = '-') :
    lowerChar c = c := by
  rcases h with h | h
  · simp only [isSlugChar, Bool.or_eq_true, Bool.and_eq_true, decide_eq_true_eq] at h
    rw [lowerChar, if_neg]
    omega
  · subst h
    decide

theorem slugRuns_cons_notSlug (a : Char) (x : List Char) (ha : isSlugChar a = false) :
    slugRuns (a :: x) = slugRuns x := by
  cases x with
  | nil => simp [slugRuns, ha]
  | cons y x' => simp [slugRuns, ha]

theorem slugRuns_append_runs : ∀ (w t : List Char), w ≠ [] →
    (∀ c ∈ w, isSlugChar c = true) → headNotSlug t = true →
    slugRuns (w ++ t) = w :: slugRuns t
  | [], _, hne, _, _ => absurd rfl hne
  | [c], t, _, hw, ht => by
    have hc : isSlugChar c = true := hw c (List.mem_cons_self _ _)
    cases t with
    | nil => simp [slugRuns, hc]
    | cons d t' =>
      have hd : isSlugChar d = false := by
        simpa [headNotSlug] using ht
      simp [slugRuns, hc, hd]
  | c :: c' :: w', t, _, hw, ht => by
    have hc : isSlugChar c = true := hw c (List.mem_cons_self _ _)
    have hc' : isSlugChar c' = true := hw c' (by simp)
    have ih := slugRuns_append_runs (c' :: w') t (by simp)
      (fun x hx => hw x (List.mem_cons_of_mem _ hx)) ht
    simp only [List.cons_append] at ih ⊢
    simp [slugRuns, hc, hc', ih]

theorem slugRuns_good : ∀ (l w : List Char), w ∈ slugRuns l →
    w ≠ [] ∧ ∀ c ∈ w, isSlugChar c = true
  | [], w, hw => by simp [slugRuns] at hw
  | [c], w, hw => by
    cases hc : isSlugChar c with
    | false => simp [slugRuns, hc] at hw
    | true =>
      simp [slugRuns, hc] at hw
      subst hw
      refine ⟨by simp, ?_⟩
      intro x hx
      simp at hx
      subst hx
      exact hc
  | c :: d :: rest, w, hw => by
    cases hc : isSlugChar c with
    | false =>
      rw [slugRuns_cons_notSlug c _ hc] at hw
      exact slugRuns_good (d :: rest) w hw
    | true =>
      cases hd : isSlugChar d with
      | false =>
        simp [slugRuns, hc, hd] at hw
        rcases hw with hw | hw
        · subst hw
          refine ⟨by simp, ?_⟩
          intro x hx
          simp at hx
          subst hx
          exact hc
        · exact slugRuns_good (d :: rest) w hw
      | true =>
        rcases hE : slugRuns (d :: rest) with _ | ⟨w0, ws⟩
        · simp [slugRuns, hc, hd, hE] at hw
          subst hw
          refine ⟨by simp, ?_⟩
          intro x hx
          simp at hx
          subst hx
          exact hc
        · simp [slugRuns, hc, hd, hE] at hw
          rcases hw with hw | hw
          · subst hw
            have h0 := slugRuns_good (d :: rest) w0 (by rw [hE]; exact List.mem_cons_self _ _)
            refine ⟨by simp, ?_⟩
            intro x hx
            rcases List.mem_cons.mp hx with h1 | h2
            · subst h1
              exact hc
            · exact h0.2 x h2
          · exact slugRuns_good (d :: rest) w (by rw [hE]; exact List.mem_cons_of_mem _ hw)

theorem joinDash_mem : ∀ (ws : List (List Char)) (c : Char), c ∈ joinDash ws →
    (∃ w ∈ ws, c ∈ w) ∨ c = '-'
  | [], c, hc => by simp [joinDash] at hc
  | [w], c, hc => by
    simp only [joinDash] at hc
    exact Or.inl ⟨w, by simp, hc⟩
  | w :: w' :: ws', c, hc => by
    simp only [joinDash, List.mem_append, List.mem_cons] at hc
    rcases hc with hc | hc | hc
    · exact Or.inl ⟨w, by simp, hc⟩
    · exact Or.inr hc
    · rcases joinDash_mem (w' :: ws') c hc with ⟨v, hv, hcv⟩ | h
      · exact Or.inl ⟨v, List.mem_cons_of_mem _ hv, hcv⟩
      · exact Or.inr h

theorem slugRuns_joinDash : ∀ (ws : List (List Char)),
    (∀ w ∈ ws, w ≠ [] ∧ ∀ c ∈ w, isSlugChar c = true) →
    slugRuns (joinDash ws) = ws
  | [], _ => by simp [joinDash, slugRuns]
  | [w], h => by
    have hw := h w (List.mem_cons_self _ _)
    have hstep := slugRuns_append_runs w [] hw.1 hw.2 (by simp [headNotSlug])
    simpa [joinDash, slugRuns] using hstep
  | w :: w' :: ws', h => by
    have hw := h w (List.mem_cons_self _ _)
    have hdash : isSlugChar '-' = false := by decide
    have hstep := slugRuns_append_runs w ('-' :: joinDash (w' :: ws')) hw.1 hw.2
      (by simp [headNotSlug, hdash])
    have ih := slugRuns_joinDash (w' :: ws') (fun v hv => h v (List.mem_cons_of_mem _ hv))
    calc slugRuns (joinDash (w :: w' :: ws'))
        = slugRuns (w ++ '-' :: joinDash (w' :: ws')) := by simp [joinDash]
      _ = w :: slugRuns ('-' :: joinDash (w' :: ws')) := hstep
      _ = w :: slugRuns (joinDash (w' :: ws')) := by
            rw [slugRuns_cons_notSlug '-' _ hdash]
      _ = w :: w' :: ws' := by rw [ih]

theorem map_lowerChar_fix : ∀ (l : List Char), (∀ c ∈ l, lowerChar c = c) →
    l.map lowerChar = l
  | [], _ => rfl
  | c :: rest, h => by
    simp [h c (List.mem_cons_self _ _),
      map_lowerChar_fix rest (fun x hx => h x (List.mem_cons_of_mem _ hx))]

theorem slugify_chars (s : List Char) : ∀ c ∈ slugify s, isSlugChar c = true ∨ c = '-' := by
  intro c hc
  rcases joinDash_mem _ c hc with ⟨w, hw, hcw⟩ | h
  · exact Or.inl ((slugRuns_good _ w hw).2 c hcw)
  · exact Or.inr h

theorem slugify_idem (s : List Char) : slugify (slugify s) = slugify s := by
  have hfix : (slugify s).map lowerChar = slugify s :=
    map_lowerChar_fix _ (fun c hc => lowerChar_fix c (slugify_chars s c hc))
  have hgood : ∀ w ∈ slugRuns (s.map lowerChar), w ≠ [] ∧ ∀ c ∈ w, isSlugChar c = true :=
    fun w hw => slugRuns_good _ w hw
  calc slugify (slugify s) = joinDash (slugRuns ((slugify s).map lowerChar)) := rfl
    _ = joinDash (slugRuns (slugify s)) := by rw [hfix]
    _ = joinDash (slugRuns (joinDash (slugRuns (s.map lowerChar)))) := rfl
    _ = joinDash (slugRuns (s.map lowerChar)) := by rw [slugRuns_joinDash _ hgood]
    _ = slugify s := rfl

/-! ## The claims -/

/-- C9: for every book title string, the derived slug contains only
characters safe for filenames (ASCII lowercase letters, digits, or the
dash), and the slug function is idempotent. -/
theorem claim_c9_slug_safe_idem :
    (∀ s : List Char, ∀ c ∈ slugify s, isSlugChar c = true ∨ c = '-')
    ∧ (∀ s : List Char, slugify (slugify s) = slugify s) :=
  ⟨fun s => slugify_chars s, fun s => slugify_idem s⟩

/-- Witness for C9 on a concrete title with spaces and punctuation. -/
theorem claim_c9_witness :
    (isSlugChar 'h' = true ∨ 'h' = '-')
    ∧ slugify (slugify "Hello, World!".toList) = slugify "Hello, World!".toList :=
  ⟨claim_c9_slug_safe_idem.1 "Hello, World!".toList 'h' (by decide),
   claim_c9_slug_safe_idem.2 "Hello, World!".toList⟩

/-- C3: the playlist yields exactly one (url, name) pair per chapter record,
in input order: the url is the media-url field unchanged and the name is the
slug of the title field. -/
theorem claim_c3_playlist_order (chapters : List TrackRec) :
    (get_playlist chapters).length = chapters.length
    ∧ ∀ (i : Nat) (h1 : i < (get_playlist chapters).length) (h2 : i < chapters.length),
        (get_playlist chapters).get ⟨i, h1⟩
          = ((chapters.get ⟨i, h2⟩).mp3, slugify (chapters.get ⟨i, h2⟩).title) := by
  refine ⟨by simp [get_playlist], ?_⟩
  intro i h1 h2
  simp [get_playlist]

/-- Witness for C3 on a concrete one-record playlist. -/
theorem claim_c3_witness :
    (get_playlist [⟨"u".toList, "T a".toList⟩]).length = 1
    ∧ (get_playlist [⟨"u".toList, "T a".toList⟩]).get ⟨0, by decide⟩
        = ("u".toList, slugify "T a".toList) :=
  ⟨(claim_c3_playlist_order [⟨"u".toList, "T a".toList⟩]).1,
   (claim_c3_playlist_order [⟨"u".toList, "T a".toList⟩]).2 0 (by decide) (by decide)⟩

/-- C8: the browser opened by open_browser is closed after the body on the
normal exit path of the scope, and is not closed when the body raises. -/
theorem claim_c8_browser_scope (url : List Char) (acts : List BrowserAct) :
    (open_browser_run url acts true).getLast? = some BrowserAct.close
    ∧ (BrowserAct.close ∉ acts → BrowserAct.close ∉ open_browser_run url acts false) := by
  constructor
  · rw [open_browser_run]
    simp only [if_pos]
    exact getLast?_cons_concat _ _ _
  · intro h hmem
    simp [open_browser_run] at hmem
    exact h hmem

/-- Witness for C8 on a concrete browser session. -/
theorem claim_c8_witness :
    (open_browser_run "u".toList [BrowserAct.nav "v".toList] true).getLast?
      = some BrowserAct.close
    ∧ BrowserAct.close ∉ open_browser_run "u".toList [BrowserAct.nav "v".toList] false :=
  ⟨(claim_c8_browser_scope "u".toList [BrowserAct.nav "v".toList]).1,
   (claim_c8_browser_scope "u".toList [BrowserAct.nav "v".toList]).2 (by decide)⟩

/-- C7: on markup whose first marker occurrence is followed by a digit run
and a closing quote, get_book_id returns exactly that digit run; on markup
with no marker occurrence at all, extraction fails (none, the Python call
would raise). -/
theorem claim_c7_book_id :
    (∀ pre ds post : List Char, ds ≠ [] → (∀ c ∈ ds, isDigitChar c = true) →
       (∀ i < pre.length,
         markerStr.isPrefixOf ((pre ++ markerStr ++ ds ++ '"' :: post).drop i) = false) →
       get_book_id (pre ++ markerStr ++ ds ++ '"' :: post) = some ds)
    ∧ (∀ l : List Char, (∀ i < l.length, markerStr.isPrefixOf (l.drop i) = false) →
       get_book_id l = none) := by
  constructor
  · intro pre ds post hne hds
    induction pre with
    | nil =>
      intro _
      simpa using get_book_id_at_match ds post hne hds
    | cons c pre' ih =>
      intro hpre
      have h0 := hpre 0 (by simp)
      rw [List.drop_zero] at h0
      simp only [List.cons_append] at h0
      have hstep : get_book_id (c :: (pre' ++ markerStr ++ ds ++ '"' :: post))
          = get_book_id (pre' ++ markerStr ++ ds ++ '"' :: post) := by
        simp only [get_book_id]
        rw [h0]
        simp
      simp only [List.cons_append, hstep]
      exact ih (fun i hi => by
        have := hpre (i + 1) (by simpa using Nat.succ_lt_succ hi)
        simpa [List.cons_append] using this)
  · intro l
    induction l with
    | nil => intro _; rfl
    | cons c rest ih =>
      intro h
      have h0 := h 0 (by simp)
      rw [List.drop_zero] at h0
      have hstep : get_book_id (c :: rest) = get_book_id rest := by
        simp only [get_book_id]
        rw [h0]
        simp
      rw [hstep]
      exact ih (fun i hi => by
        have := h (i + 1) (by simpa using Nat.succ_lt_succ hi)
        simpa using this)

/-- Witness for C7 on concrete markup with and without the marker. -/
theorem claim_c7_witness :
    get_book_id ("xx ".toList ++ markerStr ++ "123".toList ++ '"' :: " yy".toList)
      = some "123".toList
    ∧ get_book_id "hello".toList = none :=
  ⟨claim_c7_book_id.1 "xx ".toList "123".toList " yy".toList (by decide) (by decide)
     (by decide),
   claim_c7_book_id.2 "hello".toList (by decide)⟩

/-- C4: when the resolved path does not exist, get_or_create_output_dir
creates it and returns its (absolute) path; when it exists as a regular
file, it raises the directory-conflict error instead, and the driver then
reports the error, writes nothing, and exits with code 1. -/
theorem claim_c4_output_dir (env : Env) (dirname : Option (List Char))
    (book_title path : List Char)
    (hpath : get_non_blank_path env.cwd [dirname, some book_title, some env.cwd]
      = some path) :
    (env.pathKind path = PathKind.absent →
       get_or_create_output_dir env dirname book_title = some (Except.ok path))
    ∧ (env.cwd.head? = some '/' → path.head? = some '/')
    ∧ (env.pathKind path = PathKind.isFile →
       get_or_create_output_dir env dirname book_title = some (Except.error path)
       ∧ ∀ (url : List Char) (force one_file : Bool),
           get_book_title url = book_title →
           cli env url dirname force one_file
             = (Outcome.exitFail, env.initialStore, [Event.errMsg])) := by
  refine ⟨?_, ?_, ?_⟩
  · intro hk
    simp [get_or_create_output_dir, hpath, hk]
  · intro hcwd
    obtain ⟨d, -, rfl⟩ := get_non_blank_path_elim env.cwd _ path hpath
    exact abspath_abs env.cwd d hcwd
  · intro hk
    have herr : get_or_create_output_dir env dirname book_title
        = some (Except.error path) := by
      simp [get_or_create_output_dir, hpath, hk]
    refine ⟨herr, ?_⟩
    intro url force one_file hbt
    rw [cli, hbt, herr]

/-- Witness for C4: an absent path is returned, and a path that is a regular
file makes the driver exit with code 1 without writing. -/
theorem claim_c4_witness :
    get_or_create_output_dir envW0 (some "/o".toList) "b".toList
      = some (Except.ok "/o".toList)
    ∧ get_or_create_output_dir (envWithFile "/o".toList) (some "/o".toList)
        (get_book_title "x/s".toList) = some (Except.error "/o".toList)
    ∧ cli (envWithFile "/o".toList) "x/s".toList (some "/o".toList) false false
        = (Outcome.exitFail, (envWithFile "/o".toList).initialStore, [Event.errMsg]) :=
  ⟨(claim_c4_output_dir envW0 (some "/o".toList) "b".toList "/o".toList rfl).1 rfl,
   ((claim_c4_output_dir (envWithFile "/o".toList) (some "/o".toList)
       (get_book_title "x/s".toList) "/o".toList rfl).2.2 rfl).1,
   ((claim_c4_output_dir (envWithFile "/o".toList) (some "/o".toList)
       (get_book_title "x/s".toList) "/o".toList rfl).2.2 rfl).2
     "x/s".toList false false rfl⟩

/-- C5: the overwrite prompt is shown iff the resolved directory has at
least one entry and force-overwrite is not set; declining it terminates with
exit code 0, the Terminated message and no file written; an empty directory
without force proceeds straight to the download. -/
theorem claim_c5_overwrite_prompt (env : Env) (url : List Char)
    (odir : Option (List Char)) (force one_file : Bool) (path : List Char)
    (hres : get_or_create_output_dir env odir (get_book_title url)
      = some (Except.ok path)) :
    (Event.prompt ∈ (cli env url odir force one_file).2.2
       ↔ (contains_files env path = true ∧ force = false))
    ∧ (contains_files env path = true → force = false → env.confirmAnswer = false →
        cli env url odir force one_file
          = (Outcome.terminated, env.initialStore, [Event.prompt, Event.terminatedMsg]))
    ∧ (contains_files env path = false → force = false →
        cli env url odir force one_file
          = ((if (runLoopOf env url path one_file).ok then Outcome.success
                else Outcome.uncaught),
             (runLoopOf env url path one_file).store,
             Event.announce :: (runLoopOf env url path one_file).events)) := by
  have hnp : Event.prompt ∉ (runLoopOf env url path one_file).events := by
    intro hmem
    rcases loop_events_shape env.fetch one_file path (get_book_title url)
        (get_playlist env.chapters) env.initialStore Event.prompt
        (by simpa [runLoopOf] using hmem) with ⟨n, hn⟩ | hn
    · cases hn
    · cases hn
  refine ⟨?_, ?_, ?_⟩
  · by_cases hcf : contains_files env path = true
    · cases force with
      | true => simp [cli, hres, hcf, hnp]
      | false =>
        cases hca : env.confirmAnswer with
        | true => simp [cli, hres, hcf, hca]
        | false => simp [cli, hres, hcf, hca]
    · have hcf2 : contains_files env path = false := by
        cases h : contains_files env path
        · rfl
        · exact absurd h hcf
      simp [cli, hres, hcf2, hnp]
  · intro hcf hf hca
    subst hf
    simp [cli, hres, hcf, hca]
  · intro hcf hf
    subst hf
    simp [cli, hres, hcf]

/-- Witness for C5: declining the prompt over a non-empty directory, and the
promptless run over an empty one. -/
theorem claim_c5_witness :
    cli envPrompt "x/s".toList (some "/o".toList) false false
      = (Outcome.terminated, envPrompt.initialStore,
         [Event.prompt, Event.terminatedMsg])
    ∧ cli envW0 "x/s".toList (some "/o".toList) false false
      = ((if (runLoopOf envW0 "x/s".toList "/o".toList false).ok then Outcome.success
            else Outcome.uncaught),
         (runLoopOf envW0 "x/s".toList "/o".toList false).store,
         Event.announce :: (runLoopOf envW0 "x/s".toList "/o".toList false).events) :=
  ⟨(claim_c5_overwrite_prompt envPrompt "x/s".toList (some "/o".toList) false false
      "/o".toList rfl).2.1 rfl rfl rfl,
   (claim_c5_overwrite_prompt envW0 "x/s".toList (some "/o".toList) false false
      "/o".toList rfl).2.2 rfl rfl⟩

/-- C6: the output directory is the first non-blank candidate among the
explicit option, the book title slug and the working directory, made
absolute; and when resolution does not produce a directory, no download
happens (nothing is written and no progress line is printed). -/
theorem claim_c6_resolution (cwd : List Char) :
    (∀ d bt : List Char, d ≠ [] →
       get_non_blank_path cwd [some d, some bt, some cwd] = some (abspath cwd d))
    ∧ (∀ bt : List Char, bt ≠ [] →
       get_non_blank_path cwd [none, some bt, some cwd] = some (abspath cwd bt)
       ∧ get_non_blank_path cwd [some [], some bt, some cwd] = some (abspath cwd bt))
    ∧ (cwd ≠ [] →
       get_non_blank_path cwd [none, some [], some cwd] = some (abspath cwd cwd))
    ∧ (∀ (dirs : List (Option (List Char))) (path : List Char), cwd.head? = some '/' →
       get_non_blank_path cwd dirs = some path → path.head? = some '/')
    ∧ (∀ (env : Env) (url : List Char) (odir : Option (List Char)) (force one_file : Bool),
       (∀ p, get_or_create_output_dir env odir (get_book_title url) ≠ some (Except.ok p)) →
       (cli env url odir force one_file).2.1 = env.initialStore
       ∧ ∀ n, Event.progress n ∉ (cli env url odir force one_file).2.2) := by
  refine ⟨?_, ?_, ?_, ?_, ?_⟩
  · intro d bt hd
    cases d with
    | nil => exact absurd rfl hd
    | cons a d' => simp [get_non_blank_path, firstNonBlank]
  · intro bt hbt
    cases bt with
    | nil => exact absurd rfl hbt
    | cons a bt' =>
      exact ⟨by simp [get_non_blank_path, firstNonBlank],
             by simp [get_non_blank_path, firstNonBlank]⟩
  · intro hcwd
    cases cwd with
    | nil => exact absurd rfl hcwd
    | cons a cwd' => simp [get_non_blank_path, firstNonBlank]
  · intro dirs path hcwd h
    obtain ⟨d, -, rfl⟩ := get_non_blank_path_elim cwd dirs path h
    exact abspath_abs cwd d hcwd
  · intro env url odir force one_file h
    cases hg : get_or_create_output_dir env odir (get_book_title url) with
    | none =>
      rw [cli, hg]
      exact ⟨rfl, by intro n hmem; simp at hmem⟩
    | some r =>
      cases r with
      | error e =>
        rw [cli, hg]
        refine ⟨rfl, ?_⟩
        intro n hmem
        simp at hmem
      | ok p => exact absurd hg (h p)

/-- Witness for C6 on concrete candidates and a file-conflicting run. -/
theorem claim_c6_witness :
    get_non_blank_path "/w".toList [some "/o".toList, some "b".toList, some "/w".toList]
      = some (abspath "/w".toList "/o".toList)
    ∧ get_non_blank_path "/w".toList [none, some "b".toList, some "/w".toList]
      = some (abspath "/w".toList "b".toList)
    ∧ (cli (envWithFile "/o".toList) "x/s".toList (some "/o".toList) false false).2.1
      = (envWithFile "/o".toList).initialStore :=
  ⟨(claim_c6_resolution "/w".toList).1 "/o".toList "b".toList (by decide),
   ((claim_c6_resolution "/w".toList).2.1 "b".toList (by decide)).1,
   ((claim_c6_resolution "/w".toList).2.2.2.2 (envWithFile "/o".toList) "x/s".toList
      (some "/o".toList) false false (fun p hp => by
        have h1 : get_or_create_output_dir (envWithFile "/o".toList) (some "/o".toList)
            (get_book_title "x/s".toList) = some (Except.error "/o".toList) := rfl
        rw [h1] at hp
        exact Except.noConfusion (Option.some.inj hp))).1⟩

/-- C1: with the one-file flag set and a playlist of exactly three tracks,
the run creates exactly one new output file, named by the book title slug,
and its final content is the three chapter byte sequences back-to-back in
playlist order. -/
theorem claim_c1_one_file_concat (env : Env) (url : List Char)
    (odir : Option (List Char)) (force : Bool) (path : List Char)
    (t1 t2 t3 : TrackRec) (b1 b2 b3 : List Nat)
    (hch : env.chapters = [t1, t2, t3])
    (hres : get_or_create_output_dir env odir (get_book_title url)
      = some (Except.ok path))
    (hrun : contains_files env path = false ∨ force = true ∨ env.confirmAnswer = true)
    (hf1 : env.fetch t1.mp3 = some b1) (hf2 : env.fetch t2.mp3 = some b2)
    (hf3 : env.fetch t3.mp3 = some b3)
    (hinit : fsLookup env.initialStore (pathJoin path (get_book_title url)) = none) :
    (cli env url odir force true).2.1
      = env.initialStore ++ [(pathJoin path (get_book_title url), b1 ++ (b2 ++ b3))]
    ∧ (cli env url odir force true).2.1.length = env.initialStore.length + 1
    ∧ (cli env url odir force true).1 = Outcome.success := by
  obtain ⟨ho, hs, -⟩ := cli_run_spec env url odir force true path hres hrun
  have hloop := loop_one_file_three env.fetch path (get_book_title url)
    t1.mp3 (slugify t1.title) t2.mp3 (slugify t2.title) t3.mp3 (slugify t3.title)
    b1 b2 b3 env.initialStore hf1 hf2 hf3 hinit
  have hr : runLoopOf env url path true
      = ⟨env.initialStore ++ [(pathJoin path (get_book_title url), b1 ++ (b2 ++ b3))],
         [Event.progress (slugify t1.title), Event.progress (slugify t2.title),
          Event.progress (slugify t3.title), Event.allDone], true⟩ := by
    rw [runLoopOf, hch]
    simpa [get_playlist] using hloop
  refine ⟨by rw [hs, hr], by rw [hs, hr]; simp, by rw [ho, hr]; simp⟩

/-- Witness for C1 on a concrete three-track one-file run. -/
theorem claim_c1_witness :
    (cli envW1 "x/s".toList (some "/o".toList) false true).2.1
      = envW1.initialStore
          ++ [(pathJoin "/o".toList (get_book_title "x/s".toList), [1] ++ ([2, 3] ++ [4]))]
    ∧ (cli envW1 "x/s".toList (some "/o".toList) false true).2.1.length
        = envW1.initialStore.length + 1
    ∧ (cli envW1 "x/s".toList (some "/o".toList) false true).1 = Outcome.success :=
  claim_c1_one_file_concat envW1 "x/s".toList (some "/o".toList) false "/o".toList
    ⟨"u1".toList, "A".toList⟩ ⟨"u2".toList, "B".toList⟩ ⟨"u3".toList, "C".toList⟩
    [1] [2, 3] [4] rfl rfl (Or.inl rfl) rfl rfl rfl rfl

/-- C10: in per-chapter mode each output file opens in truncate mode under
the slugified track title, so when two track titles slugify to the same
name the later bytes completely replace the earlier file and fewer files
than tracks are created. -/
theorem claim_c10_trunc_collision (env : Env) (url : List Char)
    (odir : Option (List Char)) (force : Bool) (path : List Char)
    (t1 t2 : TrackRec) (b1 b2 : List Nat)
    (hch : env.chapters = [t1, t2])
    (hslug : slugify t2.title = slugify t1.title)
    (hres : get_or_create_output_dir env odir (get_book_title url)
      = some (Except.ok path))
    (hrun : contains_files env path = false ∨ force = true ∨ env.confirmAnswer = true)
    (hf1 : env.fetch t1.mp3 = some b1) (hf2 : env.fetch t2.mp3 = some b2)
    (hinit : fsLookup env.initialStore (pathJoin path (slugify t1.title)) = none) :
    (cli env url odir force false).2.1
      = env.initialStore ++ [(pathJoin path (slugify t1.title), b2)]
    ∧ (cli env url odir force false).2.1.length
        < env.initialStore.length + (get_playlist env.chapters).length := by
  obtain ⟨-, hs, -⟩ := cli_run_spec env url odir force false path hres hrun
  have hloop := loop_trunc_two env.fetch path (get_book_title url)
    t1.mp3 t2.mp3 (slugify t1.title) b1 b2 env.initialStore hf1 hf2 hinit
  have hr : runLoopOf env url path false
      = ⟨env.initialStore ++ [(pathJoin path (slugify t1.title), b2)],
         [Event.progress (slugify t1.title), Event.progress (slugify t1.title),
          Event.allDone], true⟩ := by
    rw [runLoopOf, hch]
    simpa [get_playlist, hslug] using hloop
  refine ⟨by rw [hs, hr], ?_⟩
  rw [hs, hr, hch]
  simp [get_playlist]

/-- Witness for C10 on a concrete two-track run with colliding slugs. -/
theorem claim_c10_witness :
    (cli envW10 "x/s".toList (some "/o".toList) false false).2.1
      = envW10.initialStore ++ [(pathJoin "/o".toList (slugify "A".toList), [2])]
    ∧ (cli envW10 "x/s".toList (some "/o".toList) false false).2.1.length
        < envW10.initialStore.length + (get_playlist envW10.chapters).length :=
  claim_c10_trunc_collision envW10 "x/s".toList (some "/o".toList) false "/o".toList
    ⟨"u1".toList, "A".toList⟩ ⟨"u2".toList, "a".toList⟩ [1] [2]
    rfl rfl rfl (Or.inl rfl) rfl rfl rfl

/-- C2 counterexample: per-chapter mode, two tracks whose titles slugify to
the same name; the first track is fetched ([7]) and written, the second
fetch fails after its truncating open, and after the run the file the first
track had been written to holds the empty byte sequence, so a track written
before the failure did not remain written. -/
theorem claim_c2_counterexample :
    envC2.fetch "u1".toList = some [7]
    ∧ (downloadLoop envC2.fetch false "/o".toList (get_book_title "s".toList)
        [("u1".toList, "a".toList)] envC2.initialStore).store
        = [("/o/a".toList, [7])]
    ∧ (cli envC2 "s".toList (some "/o".toList) false false).2.1
        = [("/o/a".toList, [])]
    ∧ ([7] : List Nat) ≠ [] :=
  ⟨rfl, by decide, by decide, by decide⟩

/-- C2 (amended): the completion line is printed iff every track of the
playlist was fetched and written, and then only after all of them; a fetch
failure aborts the loop, leaves the outcome unsuccessful, prints no
completion line and no further progress line, and leaves every file
untouched after the failure except the failing track's own target, which
the truncating (or append) open already touched before the fetch. -/
theorem claim_c2_abort_on_failure (env : Env) (url : List Char)
    (odir : Option (List Char)) (force one_file : Bool) (path : List Char)
    (hres : get_or_create_output_dir env odir (get_book_title url)
      = some (Except.ok path))
    (hrun : contains_files env path = false ∨ force = true ∨ env.confirmAnswer = true) :
    (Event.allDone ∈ (cli env url odir force one_file).2.2
       ↔ ∀ p ∈ get_playlist env.chapters, env.fetch p.1 ≠ none)
    ∧ ((∀ p ∈ get_playlist env.chapters, env.fetch p.1 ≠ none) →
        (cli env url odir force one_file).1 = Outcome.success
        ∧ (cli env url odir force one_file).2.2.getLast? = some Event.allDone)
    ∧ (∀ pre u n post, get_playlist env.chapters = pre ++ (u, n) :: post →
        (∀ p ∈ pre, env.fetch p.1 ≠ none) → env.fetch u = none →
        (cli env url odir force one_file).1 ≠ Outcome.success
        ∧ Event.allDone ∉ (cli env url odir force one_file).2.2
        ∧ (runLoopOf env url path one_file).events
            = pre.map (fun p => Event.progress p.2) ++ [Event.progress n]
        ∧ (cli env url odir force one_file).2.1
            = openFile one_file
                (downloadLoop env.fetch one_file path (get_book_title url) pre
                  env.initialStore).store
                (targetOf one_file path (get_book_title url) n)
        ∧ ∀ f, f ≠ targetOf one_file path (get_book_title url) n →
            fsLookup (cli env url odir force one_file).2.1 f
              = fsLookup (downloadLoop env.fetch one_file path (get_book_title url) pre
                  env.initialStore).store f) := by
  obtain ⟨ho, hs, htr⟩ := cli_run_spec env url odir force one_file path hres hrun
  refine ⟨⟨?_, ?_⟩, ?_, ?_⟩
  · intro hmem
    by_contra hnot
    obtain ⟨pre, u, n, post, hdec, hpre, hu⟩ := exists_first_fail env.fetch _ hnot
    have hfail := loop_fail_spec env.fetch one_file path (get_book_title url)
      pre u n post env.initialStore hpre hu
    have hev : (runLoopOf env url path one_file).events
        = pre.map (fun p => Event.progress p.2) ++ [Event.progress n] := by
      rw [runLoopOf, hdec, hfail]
    have hin : Event.allDone ∈ (runLoopOf env url path one_file).events := by
      rcases htr with h | h <;> rw [h] at hmem <;> simpa using hmem
    rw [hev] at hin
    simp at hin
  · intro hall
    have hsp := loop_success_spec env.fetch one_file path (get_book_title url)
      (get_playlist env.chapters) env.initialStore hall
    have hin : Event.allDone ∈ (runLoopOf env url path one_file).events := by
      rw [runLoopOf, hsp.2]
      simp
    rcases htr with h | h <;> rw [h] <;> simp [hin]
  · intro hall
    have hsp := loop_success_spec env.fetch one_file path (get_book_title url)
      (get_playlist env.chapters) env.initialStore hall
    have hok : (runLoopOf env url path one_file).ok = true := by
      rw [runLoopOf]
      exact hsp.1
    have hev : (runLoopOf env url path one_file).events
        = (get_playlist env.chapters).map (fun p => Event.progress p.2)
            ++ [Event.allDone] := by
      rw [runLoopOf]
      exact hsp.2
    constructor
    · rw [ho, hok]
      simp
    · rcases htr with h | h
      · rw [h, hev]
        exact getLast?_cons_concat _ _ _
      · rw [h, hev, ← List.cons_append]
        exact getLast?_cons_concat _ _ _
  · intro pre u n post hdec hpre hu
    have hfail := loop_fail_spec env.fetch one_file path (get_book_title url)
      pre u n post env.initialStore hpre hu
    have hr : runLoopOf env url path one_file
        = ⟨openFile one_file
             (downloadLoop env.fetch one_file path (get_book_title url) pre
               env.initialStore).store
             (targetOf one_file path (get_book_title url) n),
           pre.map (fun p => Event.progress p.2) ++ [Event.progress n], false⟩ := by
      rw [runLoopOf, hdec]
      exact hfail
    have hok : (runLoopOf env url path one_file).ok = false := by rw [hr]
    have hnotDone : Event.allDone ∉ (runLoopOf env url path one_file).events := by
      rw [hr]
      simp
    refine ⟨?_, ?_, ?_, ?_, ?_⟩
    · rw [ho, hok]
      simp
    · rcases htr with h | h <;> rw [h] <;> simp [hnotDone]
    · rw [hr]
    · rw [hs, hr]
    · intro f hf
      rw [hs, hr]
      exact fsLookup_openFile_ne one_file _ _ f hf

/-- Witness for C2 (amended) on a concrete one-track run. -/
theorem claim_c2_witness :
    Event.allDone ∈ (cli envW2 "x/s".toList (some "/o".toList) false false).2.2
      ↔ ∀ p ∈ get_playlist envW2.chapters, envW2.fetch p.1 ≠ none :=
  (claim_c2_abort_on_failure envW2 "x/s".toList (some "/o".toList) false false
    "/o".toList rfl (Or.inl rfl)).1

